import Mathlib

/-! Shallow embedding of the Ready or Not mod launcher core
(models.py, mod_manager.py, main.py) together with theorems checking
the specification's claims about it.  Filesystem state is made explicit:
the game mod directory is a list of named entries, the mod library is the
list of filenames present in the mods directory, Steam library roots are
records of the facts the resolver probes, and JSON documents are a small
JSON value type. -/

/-- A mod record (models.py, class ModRecord).  `size` is the file size in
bytes; `enabled` defaults to true as in the dataclass. -/
structure ModRecord where
  name : String
  filename : String
  path : String
  size : Nat
  enabled : Bool := true
deriving DecidableEq

/-- An instance (profile): ordered mod list plus creation timestamp
(models.py, class Instance). -/
structure Instance where
  name : String
  mods : List ModRecord := []
  created : String := ""
deriving DecidableEq

/-- Application state (models.py, class AppState). -/
structure AppState where
  active_instance : Option String := none
  steam_path : Option String := none
deriving DecidableEq

/-- JSON values, as produced by json.load and consumed by json.dump.
Objects are association lists in insertion order. -/
inductive JValue where
  | jNull
  | jBool (b : Bool)
  | jNum (n : Nat)
  | jStr (s : String)
  | jArr (xs : List JValue)
  | jObj (fields : List (String × JValue))

/-- Key lookup in a JSON object, as Python dict indexing / .get. -/
def jLookup (fs : List (String × JValue)) (k : String) : Option JValue :=
  (fs.find? (fun kv => kv.1 == k)).map (fun kv => kv.2)

/-- Typed read of a JSON string. -/
def JValue.asStr : JValue → Option String
  | .jStr s => some s
  | _ => none

/-- Typed read of a JSON number. -/
def JValue.asNat : JValue → Option Nat
  | .jNum n => some n
  | _ => none

/-- Typed read of a JSON boolean. -/
def JValue.asBool : JValue → Option Bool
  | .jBool b => some b
  | _ => none

/-- Typed read of a nullable JSON string. -/
def JValue.asOptStr : JValue → Option (Option String)
  | .jNull => some none
  | .jStr s => some (some s)
  | _ => none

/-- models.py Mod.to_dict: asdict in field order. -/
def ModRecord.to_dict (m : ModRecord) : JValue :=
  .jObj [("name", .jStr m.name), ("filename", .jStr m.filename),
         ("path", .jStr m.path), ("size", .jNum m.size),
         ("enabled", .jBool m.enabled)]

/-- models.py Mod.from_dict, i.e. Mod(**data): every key must be a ModRecord
field, the four required fields must be present, and `enabled` defaults
to true when absent.  The typed embedding fails (none) where the dynamic
call would raise. -/
def ModRecord.from_dict (j : JValue) : Option ModRecord :=
  match j with
  | .jObj fs =>
    if fs.all (fun kv => ["name", "filename", "path", "size", "enabled"].contains kv.1) then
      ((jLookup fs "name").bind JValue.asStr).bind (fun name =>
      ((jLookup fs "filename").bind JValue.asStr).bind (fun filename =>
      ((jLookup fs "path").bind JValue.asStr).bind (fun path =>
      ((jLookup fs "size").bind JValue.asNat).bind (fun size =>
      (match jLookup fs "enabled" with
        | none => some true
        | some v => v.asBool).bind (fun enabled =>
      some ⟨name, filename, path, size, enabled⟩)))))
    else none
  | _ => none

/-- models.py Instance.to_dict. -/
def Instance.to_dict (i : Instance) : JValue :=
  .jObj [("name", .jStr i.name),
         ("mods", .jArr (i.mods.map ModRecord.to_dict)),
         ("created", .jStr i.created)]

/-- The list comprehension of Instance.from_dict: deserialize each mod
entry, failing as soon as one entry fails. -/
def modListFromJson : List JValue → Option (List ModRecord)
  | [] => some []
  | x :: xs =>
    (ModRecord.from_dict x).bind (fun m =>
    (modListFromJson xs).bind (fun ms =>
    some (m :: ms)))

/-- models.py Instance.from_dict: `name` is required (data\x5b'name'\x5d),
`created` defaults to "" and `mods` to \x5b\x5d via .get; each mod entry goes
through ModRecord.from_dict.  Extra keys are ignored, as in the source. -/
def Instance.from_dict (j : JValue) : Option Instance :=
  match j with
  | .jObj fs =>
    ((jLookup fs "name").bind JValue.asStr).bind (fun name =>
    (match jLookup fs "created" with
      | none => some ""
      | some v => v.asStr).bind (fun created =>
    (match jLookup fs "mods" with
      | none => some []
      | some (.jArr xs) => modListFromJson xs
      | some _ => none).bind (fun mods =>
    some ⟨name, mods, created⟩)))
  | _ => none

/-- JSON encoding of an optional string: None becomes null. -/
def optStrToJValue : Option String → JValue
  | none => .jNull
  | some s => .jStr s

/-- models.py AppState.to_dict. -/
def AppState.to_dict (s : AppState) : JValue :=
  .jObj [("active_instance", optStrToJValue s.active_instance),
         ("steam_path", optStrToJValue s.steam_path)]

/-- models.py AppState.from_dict, i.e. AppState(**data): keys must be
AppState fields, both optional with default None.  Dataclass
construction performs no runtime validation of field values; this typed
embedding additionally requires null-or-string values, which only
differs from the source on documents outside the to_dict image and
outside the appStateBadShape domain the claims quantify over. -/
def AppState.from_dict (j : JValue) : Option AppState :=
  match j with
  | .jObj fs =>
    if fs.all (fun kv => ["active_instance", "steam_path"].contains kv.1) then
      (match jLookup fs "active_instance" with
        | none => some none
        | some v => v.asOptStr).bind (fun a =>
      (match jLookup fs "steam_path" with
        | none => some none
        | some v => v.asOptStr).bind (fun sp =>
      some ⟨a, sp⟩))
    else none
  | _ => none

/-- models.py Instance.add_mod: scanning the list for an equal filename
returns false without appending; otherwise the mod is appended. -/
def Instance.add_mod (inst : Instance) (m : ModRecord) : Bool × Instance :=
  if inst.mods.any (fun e => e.filename == m.filename) then (false, inst)
  else (true, { inst with mods := inst.mods ++ [m] })

/-- models.py Instance.get_enabled_mods. -/
def Instance.get_enabled_mods (inst : Instance) : List ModRecord :=
  inst.mods.filter (fun m => m.enabled)

/-- State-document contents as seen by load_state: the file is absent,
present but not parseable as JSON, or parsed to a JSON value. -/
inductive StateDoc where
  | missing
  | unreadable
  | content (j : JValue)

/-- models.py DataManager.load_state: a missing file yields the default
state silently; a read/parse/shape failure is caught, a warning is
printed (the Bool), and the default state is returned.  The function is
total: no failure escapes. -/
def load_state : StateDoc → AppState × Bool
  | .missing => (⟨none, none⟩, false)
  | .unreadable => (⟨none, none⟩, true)
  | .content j =>
    match AppState.from_dict j with
    | some s => (s, false)
    | none => (⟨none, none⟩, true)

theorem mod_from_dict_to_dict (m : ModRecord) : ModRecord.from_dict m.to_dict = some m := by
  cases m
  rfl

theorem mods_list_from_to_dict (ms : List ModRecord) :
    modListFromJson (ms.map ModRecord.to_dict) = some ms := by
  induction ms with
  | nil => rfl
  | cons m t ih => simp [modListFromJson, mod_from_dict_to_dict, ih]

theorem instance_from_dict_bind (n c : String) (ms : List ModRecord) :
    Instance.from_dict (Instance.to_dict ⟨n, ms, c⟩)
      = (modListFromJson (ms.map ModRecord.to_dict)).bind
          (fun mods => some ⟨n, mods, c⟩) := rfl

/-- C10: serializing a ModRecord, an Instance, or an AppState to a dictionary
and deserializing it yields the same value (from_dict after to_dict is
the identity), so an uncorrupted save/load roundtrip reproduces the
entity exactly, including per-instance enabled flags and mod order. -/
theorem serialization_roundtrip_identity :
    (∀ m : ModRecord, ModRecord.from_dict m.to_dict = some m)
    ∧ (∀ i : Instance, Instance.from_dict i.to_dict = some i)
    ∧ (∀ s : AppState, AppState.from_dict s.to_dict = some s) := by
  refine ⟨mod_from_dict_to_dict, ?_, ?_⟩
  · intro i
    cases i with
    | mk n ms c =>
      rw [instance_from_dict_bind, mods_list_from_to_dict]
      rfl
  · intro s
    cases s with
    | mk a sp => cases a <;> cases sp <;> rfl

/-- C4: adding a mod whose filename is already present returns false and
leaves the instance unchanged, and adding a second mod with the same
filename right after a first add leaves the mod list length unchanged. -/
theorem add_mod_duplicate_filename (inst : Instance) (m m' : ModRecord) :
    (inst.mods.any (fun e => e.filename == m.filename) = true →
      inst.add_mod m = (false, inst))
    ∧ (m'.filename = m.filename →
      (((inst.add_mod m).2).add_mod m').2.mods.length
        = ((inst.add_mod m).2).mods.length) := by
  constructor
  · intro h
    simp [Instance.add_mod, h]
  · intro h
    by_cases hc : inst.mods.any (fun e => e.filename == m.filename) = true
    · simp [Instance.add_mod, hc, h]
    · simp [Instance.add_mod, hc, h]

/-- Sample instance already holding filename A.pak. -/
def c4Inst : Instance :=
  ⟨"alpha", [⟨"A", "A.pak", "/lib/A.pak", 1, true⟩], "2024-01-01"⟩

/-- Sample mod with the duplicate filename A.pak. -/
def c4Mod : ModRecord := ⟨"A2", "A.pak", "/lib/A.pak", 2, true⟩

theorem add_mod_duplicate_filename_witness :
    c4Inst.add_mod c4Mod = (false, c4Inst)
    ∧ ((c4Inst.add_mod c4Mod).2.add_mod c4Mod).2.mods.length
        = ((c4Inst.add_mod c4Mod).2).mods.length :=
  ⟨(add_mod_duplicate_filename c4Inst c4Mod c4Mod).1 (by decide),
   (add_mod_duplicate_filename c4Inst c4Mod c4Mod).2 rfl⟩

/-- The parsed documents on which AppState(**data) raises TypeError:
the value is not a JSON object, or the object has a key that is not an
AppState field.  Dataclass construction does not validate field values,
so a well-keyed object never raises, whatever its values — these are
exactly the wrong-shape documents the except branch of load_state
catches. -/
def appStateBadShape (j : JValue) : Bool :=
  match j with
  | .jObj fs => !(fs.all (fun kv => ["active_instance", "steam_path"].contains kv.1))
  | _ => true

theorem from_dict_none_of_bad_shape (j : JValue)
    (h : appStateBadShape j = true) : AppState.from_dict j = none := by
  cases j with
  | jObj fs =>
    simp [appStateBadShape] at h
    simp [AppState.from_dict, h]
  | jNull => rfl
  | jBool b => rfl
  | jNum n => rfl
  | jStr s => rfl
  | jArr xs => rfl

/-- C7: loading the application state never hard-fails: a missing state
document yields the default empty state, an unparseable document yields
the default empty state plus a logged warning, and a parsed document of
a shape that makes AppState(**data) raise — not an object, or an
unexpected key — yields the default empty state plus a logged
warning. -/
theorem load_state_never_hard_fails (j : JValue)
    (h : appStateBadShape j = true) :
    load_state .missing = (⟨none, none⟩, false)
    ∧ load_state .unreadable = (⟨none, none⟩, true)
    ∧ load_state (.content j) = (⟨none, none⟩, true) := by
  refine ⟨rfl, rfl, ?_⟩
  simp [load_state, from_dict_none_of_bad_shape j h]

theorem load_state_never_hard_fails_witness :
    load_state (.content (.jObj [("bogus", JValue.jNull)])) = (⟨none, none⟩, true) :=
  (load_state_never_hard_fails (.jObj [("bogus", JValue.jNull)]) rfl).2.2

/-- One directory entry of the game mod directory: its name and whether
it is a symbolic link. -/
structure PakDirEntry where
  name : String
  isLink : Bool
deriving DecidableEq

/-- The game mod directory, as a list of entries. -/
abbrev GameDir := List PakDirEntry

/-- models.py DataManager.SYMLINK_PREFIX. -/
def symlinkTag : String := "ronmgr_"

/-- Whether a name carries the reserved manager tag at its start
(item.name.startswith in the source), phrased over the character list. -/
def nameHasTag (s : String) : Bool :=
  symlinkTag.toList.isPrefixOf s.toList

/-- A managed entry: a symlink whose name starts with the reserved tag
(mod_manager.py get_managed_symlinks loop body). -/
def isManagedEntry (e : PakDirEntry) : Bool :=
  e.isLink && nameHasTag e.name

/-- mod_manager.py ModManager.get_managed_symlinks on a valid game dir. -/
def get_managed_symlinks (d : GameDir) : List PakDirEntry :=
  d.filter isManagedEntry

/-- mod_manager.py ModManager.clear_managed_symlinks on a valid game dir:
unlink every managed symlink, returning the removed count and the
resulting directory. -/
def clear_managed_symlinks (d : GameDir) : Nat × GameDir :=
  ((d.filter isManagedEntry).length, d.filter (fun e => !isManagedEntry e))

/-- os.symlink: fails when an entry of that name already exists,
otherwise adds a new symlink entry. -/
def os_symlink (d : GameDir) (linkName : String) : Option GameDir :=
  if d.any (fun e => e.name == linkName) then none
  else some (d ++ [⟨linkName, true⟩])

/-- The per-mod loop of ModManager.activate_instance: `src` tells whether
a mod's source path still exists on disk.  Accumulates the created count
and the error list in order. -/
def activateLoop (src : String → Bool) :
    List ModRecord → GameDir → Nat → List String → Nat × List String × GameDir
  | [], d, c, errs => (c, errs, d)
  | m :: rest, d, c, errs =>
    if src m.path then
      match os_symlink d (symlinkTag ++ m.filename) with
      | some d' => activateLoop src rest d' (c + 1) errs
      | none =>
        activateLoop src rest d c
          (errs ++ ["Symlink already exists: " ++ symlinkTag ++ m.filename])
    else
      activateLoop src rest d c (errs ++ ["Mod file not found: " ++ m.filename])

/-- mod_manager.py ModManager.activate_instance: fail if the game dir is
not valid, otherwise clear all managed symlinks and create one symlink
per enabled mod, collecting errors. -/
def activate_instance (src : String → Bool) (gameDirValid : Bool)
    (d : GameDir) (inst : Instance) : Nat × List String × GameDir :=
  if gameDirValid then
    activateLoop src inst.get_enabled_mods (clear_managed_symlinks d).2 0 []
  else (0, ["Game directory not found"], d)

/-- mod_manager.py ModManager.deactivate_all. -/
def deactivate_all (d : GameDir) : Nat × GameDir :=
  clear_managed_symlinks d

theorem filter_not_managed_os_symlink (d d' : GameDir) (fn : String)
    (h : os_symlink d (symlinkTag ++ fn) = some d') :
    d'.filter (fun e => !isManagedEntry e) = d.filter (fun e => !isManagedEntry e) := by
  unfold os_symlink at h
  by_cases hc : d.any (fun e => e.name == symlinkTag ++ fn) = true
  · simp [hc] at h
  · simp [hc] at h
    subst h
    have htag : isManagedEntry ⟨symlinkTag ++ fn, true⟩ = true := by
      simp [isManagedEntry, nameHasTag]
    simp [List.filter_append, htag]

theorem filter_not_managed_activateLoop (src : String → Bool)
    (ms : List ModRecord) :
    ∀ (d : GameDir) (c : Nat) (errs : List String),
    (activateLoop src ms d c errs).2.2.filter (fun e => !isManagedEntry e)
      = d.filter (fun e => !isManagedEntry e) := by
  induction ms with
  | nil => intro d c errs; rfl
  | cons m rest ih =>
    intro d c errs
    by_cases hs : src m.path = true
    · rcases hd : os_symlink d (symlinkTag ++ m.filename) with _ | d'
      · simp [activateLoop, hs, hd, ih]
      · simp [activateLoop, hs, hd, ih,
          filter_not_managed_os_symlink d d' m.filename hd]
    · simp [activateLoop, hs, ih]

theorem filter_not_managed_idem (d : GameDir) :
    (d.filter (fun e => !isManagedEntry e)).filter (fun e => !isManagedEntry e)
      = d.filter (fun e => !isManagedEntry e) := by
  induction d with
  | nil => rfl
  | cons e t ih =>
    by_cases he : isManagedEntry e = true <;> simp [he, ih]

theorem managed_after_clear (d : GameDir) :
    (d.filter (fun e => !isManagedEntry e)).filter isManagedEntry = [] := by
  induction d with
  | nil => rfl
  | cons e t ih =>
    by_cases he : isManagedEntry e = true <;> simp [he, ih]

theorem activate_instance_true_def (src : String → Bool) (d : GameDir)
    (inst : Instance) :
    activate_instance src true d inst
      = activateLoop src inst.get_enabled_mods
          (d.filter (fun e => !isManagedEntry e)) 0 [] := rfl

/-- C2: activation is idempotent — running activate_instance again on
the directory produced by a first activation reproduces the first
result exactly (in particular the same set of managed symlinks), and
deactivating after activation leaves zero managed symlinks. -/
theorem activate_instance_idempotent (src : String → Bool) (d : GameDir)
    (inst : Instance) :
    activate_instance src true
        (activate_instance src true d inst).2.2 inst
      = activate_instance src true d inst
    ∧ get_managed_symlinks
        (deactivate_all (activate_instance src true d inst).2.2).2 = [] := by
  constructor
  · simp only [activate_instance_true_def]
    rw [filter_not_managed_activateLoop, filter_not_managed_idem]
  · exact managed_after_clear _

theorem activateLoop_all_missing (src : String → Bool) (ms : List ModRecord)
    (h : ∀ m ∈ ms, src m.path = false) :
    ∀ (d : GameDir) (c : Nat) (errs : List String),
    activateLoop src ms d c errs
      = (c, errs ++ ms.map (fun m => "Mod file not found: " ++ m.filename), d) := by
  induction ms with
  | nil => intro d c errs; simp [activateLoop]
  | cons m rest ih =>
    intro d c errs
    have hm : src m.path = false := h m (List.mem_cons_self m rest)
    have hrest : ∀ m' ∈ rest, src m'.path = false :=
      fun m' hm' => h m' (List.mem_cons_of_mem m hm')
    simp [activateLoop, hm, ih hrest]

theorem activateLoop_split (src : String → Bool) :
    ∀ (pre post : List ModRecord) (d : GameDir) (c : Nat) (errs : List String),
    activateLoop src (pre ++ post) d c errs
      = activateLoop src post (activateLoop src pre d c errs).2.2
          (activateLoop src pre d c errs).1
          (activateLoop src pre d c errs).2.1 := by
  intro pre
  induction pre with
  | nil => intro post d c errs; rfl
  | cons m rest ih =>
    intro post d c errs
    by_cases hs : src m.path = true
    · rcases hd : os_symlink d (symlinkTag ++ m.filename) with _ | d'
      · simp [activateLoop, hs, hd, ih]
      · simp [activateLoop, hs, hd, ih]
    · simp [activateLoop, hs, ih]

theorem activateLoop_missing_step (src : String → Bool) (m : ModRecord)
    (post : List ModRecord) (d : GameDir) (c : Nat) (errs : List String)
    (hmiss : src m.path = false) :
    activateLoop src (m :: post) d c errs
      = activateLoop src post d c
          (errs ++ ["Mod file not found: " ++ m.filename]) := by
  simp [activateLoop, hmiss]

/-- C3: activation walks the enabled mods in the instance's stored
order; whenever, after any mix of earlier mods, the walk reaches an
enabled mod whose source file no longer exists, it appends exactly one
missing-file error naming that mod and skips it — the created count
and the directory are untouched by that mod — and then continues with
the remaining mods; in particular an instance whose single enabled
mod's source was deleted returns count 0 and exactly one error naming
that mod. -/
theorem activate_instance_missing_sources (src : String → Bool)
    (d : GameDir) (inst : Instance) (pre post : List ModRecord) (m : ModRecord)
    (hsplit : inst.get_enabled_mods = pre ++ m :: post)
    (hmiss : src m.path = false) :
    activate_instance src true d inst
      = activateLoop src post
          (activateLoop src pre (clear_managed_symlinks d).2 0 []).2.2
          (activateLoop src pre (clear_managed_symlinks d).2 0 []).1
          ((activateLoop src pre (clear_managed_symlinks d).2 0 []).2.1
            ++ ["Mod file not found: " ++ m.filename])
    ∧ (∀ (inst₁ : Instance) (m₁ : ModRecord),
        inst₁.get_enabled_mods = [m₁] → src m₁.path = false →
        activate_instance src true d inst₁
          = (0, ["Mod file not found: " ++ m₁.filename],
             (clear_managed_symlinks d).2)) := by
  constructor
  · rw [activate_instance_true_def, hsplit, activateLoop_split]
    exact activateLoop_missing_step src m post _ _ _ hmiss
  · intro inst₁ m₁ hone hm₁
    have hall : ∀ m' ∈ [m₁], src m'.path = false := by
      intro m' hm'
      rw [List.mem_singleton] at hm'
      rw [hm']
      exact hm₁
    rw [activate_instance_true_def, hone, activateLoop_all_missing src [m₁] hall]
    rfl

/-- Sample instance whose single enabled mod's source file is gone. -/
def c3Inst : Instance :=
  ⟨"solo", [⟨"Gone", "Gone.pak", "/lib/Gone.pak", 7, true⟩], "2024-01-02"⟩

theorem activate_instance_missing_sources_witness :
    activate_instance (fun _ => false) true [] c3Inst
      = (0, ["Mod file not found: Gone.pak"], []) :=
  (activate_instance_missing_sources (fun _ => false) [] c3Inst [] []
      ⟨"Gone", "Gone.pak", "/lib/Gone.pak", 7, true⟩ rfl rfl).2
    c3Inst ⟨"Gone", "Gone.pak", "/lib/Gone.pak", 7, true⟩ rfl rfl

/-- The facts of one candidate steamapps root that
ModManager._validate_and_create_mod_directory probes, in probe order:
the appmanifest file, the game directory, the Proton compatdata pfx,
the Saved/Paks mods path, the AppData/Local parent, and whether creating
the missing tail directories would succeed. -/
structure SteamRoot where
  hasManifest : Bool
  hasGameDir : Bool
  hasCompatPfx : Bool
  hasModsPath : Bool
  hasAppDataLocal : Bool
  mkdirOk : Bool
deriving DecidableEq

/-- The distinct failure messages of game-path resolution, one
constructor per message string in mod_manager.py. -/
inductive DetectError where
  | steamNotFound
  | gameFilesMissing
  | protonPfxMissing
  | protonPfxIncomplete
  | dirCreateFailed
  | gameNotInstalled (checked : Nat)
deriving DecidableEq

/-- mod_manager.py ModManager._validate_and_create_mod_directory:
returns (path, error); (none, none) means the game is not in this
library and the search continues. -/
def validateRoot (r : SteamRoot) : Option SteamRoot × Option DetectError :=
  if !r.hasManifest then (none, none)
  else if !r.hasGameDir then (none, some .gameFilesMissing)
  else if !r.hasCompatPfx then (none, some .protonPfxMissing)
  else if r.hasModsPath then (some r, none)
  else if !r.hasAppDataLocal then (none, some .protonPfxIncomplete)
  else if r.mkdirOk then (some r, none)
  else (none, some .dirCreateFailed)

/-- A terminal outcome of the per-root loop in _detect_game_path. -/
inductive ScanOutcome where
  | found (r : SteamRoot)
  | fatal (e : DetectError)
deriving DecidableEq

/-- The per-root loop of _detect_game_path: first terminal outcome wins;
none means every root said "not present here". -/
def detectScan : List SteamRoot → Option ScanOutcome
  | [] => none
  | r :: rest =>
    match validateRoot r with
    | (some p, _) => some (.found p)
    | (none, some e) => some (.fatal e)
    | (none, none) => detectScan rest

/-- The result of game-path resolution. -/
inductive DetectResult where
  | found (r : SteamRoot)
  | failed (e : DetectError)
deriving DecidableEq

/-- mod_manager.py ModManager._detect_game_path over an ordered list of
candidate steamapps roots. -/
def detect_game_path (roots : List SteamRoot) : DetectResult :=
  if roots.isEmpty then .failed .steamNotFound
  else
    match detectScan roots with
    | some (.found r) => .found r
    | some (.fatal e) => .failed e
    | none => .failed (.gameNotInstalled roots.length)

/-- C1: if every earlier root lacks the game manifest and some root has
the manifest but no game installation directory, resolution returns the
GameFilesMissing error whatever roots follow (so no prerequisite of a
later root is consulted); and a root without the manifest just passes
the search on to the remaining roots. -/
theorem detect_game_path_manifest_without_files
    (pre post : List SteamRoot) (r : SteamRoot)
    (hpre : ∀ x ∈ pre, x.hasManifest = false)
    (hman : r.hasManifest = true) (hgame : r.hasGameDir = false) :
    detect_game_path (pre ++ r :: post) = .failed .gameFilesMissing
    ∧ ∀ (s : SteamRoot) (rest : List SteamRoot), s.hasManifest = false →
        detectScan (s :: rest) = detectScan rest := by
  have hskip : ∀ (s : SteamRoot) (rest : List SteamRoot), s.hasManifest = false →
      detectScan (s :: rest) = detectScan rest := by
    intro s rest hs
    simp [detectScan, validateRoot, hs]
  refine ⟨?_, hskip⟩
  have hscan : detectScan (pre ++ r :: post) = some (.fatal .gameFilesMissing) := by
    induction pre with
    | nil => simp [detectScan, validateRoot, hman, hgame]
    | cons x xs ih =>
      rw [List.cons_append, hskip x (xs ++ r :: post) (hpre x (List.mem_cons_self x xs))]
      exact ih (fun y hy => hpre y (List.mem_cons_of_mem x hy))
  unfold detect_game_path
  rw [hscan]
  simp

/-- A root holding the manifest but no game files. -/
def c1BadRoot : SteamRoot := ⟨true, false, false, false, false, false⟩

/-- A root without the manifest. -/
def c1EmptyRoot : SteamRoot := ⟨false, false, false, false, false, false⟩

/-- A fully healthy root placed after the bad one; it must not be
reached. -/
def c1GoodRoot : SteamRoot := ⟨true, true, true, true, true, true⟩

theorem detect_game_path_manifest_without_files_witness :
    detect_game_path [c1EmptyRoot, c1BadRoot, c1GoodRoot]
      = .failed .gameFilesMissing :=
  (detect_game_path_manifest_without_files [c1EmptyRoot] [c1GoodRoot] c1BadRoot
    (by intro x hx; simp at hx; subst hx; rfl) rfl rfl).1

/-- main.py MainWindow.delete_instance together with models.py
DataManager.delete_instance: the persisted instances are a list of
(name, instance) pairs; DataManager.delete_instance removes the
directory of that name if present. -/
def dataManagerDeleteInstance (store : List (String × Instance))
    (nm : String) : List (String × Instance) :=
  store.filter (fun p => !(p.1 == nm))

/-- main.py MainWindow.delete_instance: deleting the currently active
instance is rejected with a warning dialog and nothing is touched;
otherwise the instance is removed from disk.  Returns the (unchanged)
app state, the resulting store, and whether deletion was rejected. -/
def mainWindowDeleteInstance (st : AppState)
    (store : List (String × Instance)) (nm : String) :
    AppState × List (String × Instance) × Bool :=
  if st.active_instance == some nm then (st, store, true)
  else (st, dataManagerDeleteInstance store nm, false)

/-- C5: deleting the instance named by AppState.active_instance is
rejected: the stored state and the persisted instances are unchanged. -/
theorem delete_active_instance_rejected (st : AppState)
    (store : List (String × Instance)) (nm : String)
    (h : st.active_instance = some nm) :
    mainWindowDeleteInstance st store nm = (st, store, true) := by
  simp [mainWindowDeleteInstance, h]

theorem delete_active_instance_rejected_witness :
    mainWindowDeleteInstance ⟨some "alpha", none⟩ [("alpha", ⟨"alpha", [], ""⟩)] "alpha"
      = (⟨some "alpha", none⟩, [("alpha", ⟨"alpha", [], ""⟩)], true) :=
  delete_active_instance_rejected ⟨some "alpha", none⟩
    [("alpha", ⟨"alpha", [], ""⟩)] "alpha" rfl

/-- A candidate .pak file handed to DataManager.import_mod: its stem and
filename, whether the file exists, whether its (lowercased) extension is
.pak, and its size in bytes. -/
structure PakFile where
  stem : String
  filename : String
  fileExists : Bool
  suffixIsPak : Bool
  size : Nat
deriving DecidableEq

/-- models.py DataManager.import_mod: the library is the list of
filenames already present in the mods directory.  Rejects a missing or
non-.pak file, returns "not imported" on a name already in the library,
otherwise copies the file and returns the new ModRecord. -/
def import_mod (modsDirPath : String) (lib : List String)
    (p : PakFile) : Option ModRecord × List String :=
  if !(p.fileExists && p.suffixIsPak) then (none, lib)
  else if lib.contains p.filename then (none, lib)
  else (some ⟨p.stem, p.filename, modsDirPath ++ "/" ++ p.filename, p.size, true⟩,
        lib ++ [p.filename])

/-- The import loop of DataManager.import_archive over the extracted
.pak files, collecting the imported mods in order. -/
def importPaks (modsDirPath : String) :
    List PakFile → List String → List ModRecord × List String
  | [], lib => ([], lib)
  | p :: rest, lib =>
    match import_mod modsDirPath lib p with
    | (some m, lib') =>
      let r := importPaks modsDirPath rest lib'
      (m :: r.1, r.2)
    | (none, lib') => importPaks modsDirPath rest lib'

/-- Outcome of DataManager._extract_archive for a given archive: the
list of .pak files found in the extracted tree, or the exception
message. -/
inductive ExtractOutcome where
  | ok (paks : List PakFile)
  | failedWith (msg : String)
deriving DecidableEq

/-- An archive file as import_archive sees it: whether the path exists,
its lowercased extension (with dot), and what extraction yields. -/
structure ArchiveFile where
  pathExists : Bool
  suffix : String
  extraction : ExtractOutcome
deriving DecidableEq

/-- models.py DataManager.import_archive: validate existence and
extension, extract, report when no .pak file was found, otherwise import
every extracted .pak.  Returns (imported mods, resulting library, error
message). -/
def import_archive (modsDirPath : String) (lib : List String)
    (a : ArchiveFile) : List ModRecord × List String × Option String :=
  if !a.pathExists then ([], lib, some "Archive file not found")
  else if !([".zip", ".7z", ".rar"].contains a.suffix) then
    ([], lib, some ("Unsupported archive format: " ++ a.suffix))
  else
    match a.extraction with
    | .failedWith msg => ([], lib, some msg)
    | .ok [] => ([], lib, some "No .pak files found in archive")
    | .ok paks =>
      let r := importPaks modsDirPath paks lib
      (r.1, r.2, none)

theorem import_mod_duplicate (modsDirPath : String) (lib : List String)
    (p : PakFile) (h : lib.contains p.filename = true) :
    import_mod modsDirPath lib p = (none, lib) := by
  have h' : p.filename ∈ lib := List.mem_of_elem_eq_true h
  unfold import_mod
  by_cases hv : (p.fileExists && p.suffixIsPak) = true <;> simp [hv, h']

theorem importPaks_lib_monotone (modsDirPath : String) (paks : List PakFile) :
    ∀ (lib : List String) (x : String), x ∈ lib →
      x ∈ (importPaks modsDirPath paks lib).2 := by
  induction paks with
  | nil => intro lib x hx; exact hx
  | cons p rest ih =>
    intro lib x hx
    unfold importPaks import_mod
    by_cases hv : (p.fileExists && p.suffixIsPak) = true
    · by_cases hd : p.filename ∈ lib
      · simp [hv, hd]
        exact ih lib x hx
      · simp [hv, hd]
        exact ih (lib ++ [p.filename]) x (List.mem_append_left _ hx)
    · simp [hv]
      exact ih lib x hx

theorem importPaks_covers (modsDirPath : String) (paks : List PakFile) :
    ∀ (lib : List String), ∀ p ∈ paks,
      (p.fileExists && p.suffixIsPak) = true →
      p.filename ∈ (importPaks modsDirPath paks lib).2 := by
  induction paks with
  | nil => intro lib p hp; simp at hp
  | cons q rest ih =>
    intro lib p hp hv
    rcases List.mem_cons.mp hp with hpq | hptl
    · subst hpq
      unfold importPaks import_mod
      by_cases hd : p.filename ∈ lib
      · simp [hv, hd]
        exact importPaks_lib_monotone modsDirPath rest lib p.filename hd
      · simp [hv, hd]
        exact importPaks_lib_monotone modsDirPath rest (lib ++ [p.filename])
          p.filename (List.mem_append_right _ (List.mem_singleton.mpr rfl))
    · unfold importPaks import_mod
      by_cases hv' : (q.fileExists && q.suffixIsPak) = true
      · by_cases hd : q.filename ∈ lib
        · simp [hv', hd]; exact ih lib p hptl hv
        · simp [hv', hd]; exact ih (lib ++ [q.filename]) p hptl hv
      · simp [hv']; exact ih lib p hptl hv

theorem importPaks_all_dup (modsDirPath : String) (paks : List PakFile) :
    ∀ (lib : List String),
      (∀ p ∈ paks, (p.fileExists && p.suffixIsPak) = true →
        p.filename ∈ lib) →
      importPaks modsDirPath paks lib = ([], lib) := by
  induction paks with
  | nil => intro lib _; rfl
  | cons q rest ih =>
    intro lib h
    unfold importPaks import_mod
    by_cases hv : (q.fileExists && q.suffixIsPak) = true
    · have hq : q.filename ∈ lib := h q (List.mem_cons_self q rest) hv
      simp [hv, hq]
      exact ih lib (fun p hp hpv => h p (List.mem_cons_of_mem q hp) hpv)
    · simp [hv]
      exact ih lib (fun p hp hpv => h p (List.mem_cons_of_mem q hp) hpv)

/-- C6: importing a package file whose filename is already in the
library returns "not imported" and leaves the library untouched; and
importing the same archive a second time imports zero new entries,
leaves the library exactly as after the first import, and reports no
error — the filename-level deduplication is silent. -/
theorem import_archive_dedup_by_filename (modsDirPath : String)
    (lib : List String) (p : PakFile) (a : ArchiveFile) (paks : List PakFile)
    (hdup : lib.contains p.filename = true)
    (hex : a.pathExists = true)
    (hsuf : [".zip", ".7z", ".rar"].contains a.suffix = true)
    (hok : a.extraction = .ok paks) (hne : paks ≠ []) :
    import_mod modsDirPath lib p = (none, lib)
    ∧ import_archive modsDirPath (import_archive modsDirPath lib a).2.1 a
        = ([], (import_archive modsDirPath lib a).2.1, none) := by
  refine ⟨import_mod_duplicate modsDirPath lib p hdup, ?_⟩
  have hsuf' : a.suffix ∈ [".zip", ".7z", ".rar"] := List.mem_of_elem_eq_true hsuf
  have hrun : ∀ (l : List String),
      import_archive modsDirPath l a
        = ((importPaks modsDirPath paks l).1, (importPaks modsDirPath paks l).2, none) := by
    intro l
    unfold import_archive
    rcases paks with _ | ⟨q, rest⟩
    · exact absurd rfl hne
    · simp [hex, hsuf', hok]
  rw [hrun lib, hrun ((importPaks modsDirPath paks lib).2)]
  rw [importPaks_all_dup modsDirPath paks ((importPaks modsDirPath paks lib).2)
    (fun q hq hqv => importPaks_covers modsDirPath paks lib q hq hqv)]

/-- Archive holding one fresh .pak file, used as the C6 witness. -/
def c6Pak : PakFile := ⟨"B", "B.pak", true, true, 3⟩

/-- A duplicate candidate whose filename is already in the library. -/
def c6DupPak : PakFile := ⟨"A", "A.pak", true, true, 5⟩

/-- The archive imported twice in the C6 witness. -/
def c6Archive : ArchiveFile := ⟨true, ".zip", .ok [c6Pak]⟩

theorem import_archive_dedup_by_filename_witness :
    import_mod "/data/mods" ["A.pak"] c6DupPak = (none, ["A.pak"])
    ∧ import_archive "/data/mods"
        (import_archive "/data/mods" ["A.pak"] c6Archive).2.1 c6Archive
        = ([], (import_archive "/data/mods" ["A.pak"] c6Archive).2.1, none) :=
  import_archive_dedup_by_filename "/data/mods" ["A.pak"] c6DupPak c6Archive
    [c6Pak] (by decide) rfl (by decide) rfl (by decide)

/-- Code-point comparison of character lists, as Python compares str. -/
def charListLe : List Char → List Char → Bool
  | [], _ => true
  | _ :: _, [] => false
  | a :: as, b :: bs => if a = b then charListLe as bs else decide (a < b)

/-- Python ≤ on strings. -/
def strLe (a b : String) : Bool := charListLe a.toList b.toList

/-- Insertion into a ≤-sorted list of names. -/
def insertSorted (s : String) : List String → List String
  | [] => [s]
  | x :: xs => if strLe s x then s :: x :: xs else x :: insertSorted s xs

/-- The sort performed by Python sorted() on a list of names. -/
def sortStrings : List String → List String
  | [] => []
  | x :: xs => insertSorted x (sortStrings xs)

/-- Content state of an instance.json file when one is present: a valid
instance document, or a file that does not parse/deserialize. -/
inductive InstanceDocState where
  | corrupt
  | valid (i : Instance)
deriving DecidableEq

/-- One entry of the instances directory as list_instances iterates it:
its name, whether it is a directory, and its instance.json content (none
when no such file exists). -/
structure InstanceDirEntry where
  name : String
  isDir : Bool
  doc : Option InstanceDocState
deriving DecidableEq

/-- models.py DataManager.list_instances: keep the directories that have
an instance.json file — existence only, content never inspected — and
sort the names. -/
def list_instances (entries : List InstanceDirEntry) : List String :=
  sortStrings ((entries.filter (fun e => e.isDir && e.doc.isSome)).map (fun e => e.name))

/-- Whether an instance.json file is present and holds a valid instance
document. -/
def isValidDoc : Option InstanceDocState → Bool
  | some (.valid _) => true
  | _ => false

/-- The claim's reading of list_instances: only subdirectories whose
instance document is valid are listed. -/
def list_instances_claimed (entries : List InstanceDirEntry) : List String :=
  sortStrings ((entries.filter (fun e => e.isDir && isValidDoc e.doc)).map (fun e => e.name))

/-- A subdirectory whose instance.json exists but is corrupt. -/
def c8CorruptEntry : InstanceDirEntry := ⟨"a", true, some .corrupt⟩

/-- C8 counterexample: on a directory whose only entry is a subdirectory
with a corrupt instance.json, the code lists the name anyway, while the
claim (only subdirectories with a valid instance document) would list
nothing. -/
theorem list_instances_counterexample :
    list_instances [c8CorruptEntry] = ["a"]
    ∧ list_instances_claimed [c8CorruptEntry] = [] :=
  ⟨rfl, rfl⟩

theorem charListLe_total : ∀ a b : List Char,
    charListLe a b = true ∨ charListLe b a = true := by
  intro a
  induction a with
  | nil => intro b; left; rfl
  | cons x xs ih =>
    intro b
    cases b with
    | nil => right; rfl
    | cons y ys =>
      by_cases hxy : x = y
      · subst hxy
        rcases ih ys with h | h
        · left; simp [charListLe, h]
        · right; simp [charListLe, h]
      · rcases lt_trichotomy x y with h | h | h
        · left; simp [charListLe, hxy, h]
        · exact absurd h hxy
        · right; simp [charListLe, Ne.symm hxy, h]

theorem charListLe_trans : ∀ a b c : List Char,
    charListLe a b = true → charListLe b c = true → charListLe a c = true := by
  intro a
  induction a with
  | nil => intro b c _ _; rfl
  | cons x xs ih =>
    intro b c hab hbc
    cases b with
    | nil => simp [charListLe] at hab
    | cons y ys =>
      cases c with
      | nil => simp [charListLe] at hbc
      | cons z zs =>
        by_cases hxy : x = y
        · subst hxy
          simp [charListLe] at hab
          by_cases hxz : x = z
          · subst hxz
            simp [charListLe] at hbc ⊢
            exact ih ys zs hab hbc
          · simp [charListLe, hxz] at hbc ⊢
            exact hbc
        · simp [charListLe, hxy] at hab
          by_cases hyz : y = z
          · subst hyz
            simp [charListLe, hxy]
            exact hab
          · simp [charListLe, hyz] at hbc
            have hxz : x < z := lt_trans hab hbc
            simp [charListLe, ne_of_lt hxz, hxz]

theorem strLe_total (a b : String) : strLe a b = true ∨ strLe b a = true :=
  charListLe_total a.toList b.toList

theorem strLe_trans {a b c : String} (h1 : strLe a b = true)
    (h2 : strLe b c = true) : strLe a c = true :=
  charListLe_trans a.toList b.toList c.toList h1 h2

theorem perm_insertSorted (s : String) :
    ∀ l : List String, (insertSorted s l).Perm (s :: l) := by
  intro l
  induction l with
  | nil => exact List.Perm.refl _
  | cons x xs ih =>
    unfold insertSorted
    by_cases h : strLe s x = true
    · rw [if_pos h]
    · rw [if_neg h]
      exact (ih.cons x).trans (List.Perm.swap s x xs)

theorem perm_sortStrings : ∀ l : List String, (sortStrings l).Perm l := by
  intro l
  induction l with
  | nil => exact List.Perm.refl _
  | cons x xs ih =>
    exact (perm_insertSorted x (sortStrings xs)).trans (ih.cons x)

theorem sorted_insertSorted (s : String) :
    ∀ l : List String, l.Pairwise (fun a b => strLe a b = true) →
      (insertSorted s l).Pairwise (fun a b => strLe a b = true) := by
  intro l
  induction l with
  | nil =>
    intro _
    exact List.pairwise_singleton _ s
  | cons x xs ih =>
    intro h
    obtain ⟨hx, hxs⟩ := List.pairwise_cons.mp h
    unfold insertSorted
    by_cases hsx : strLe s x = true
    · rw [if_pos hsx]
      refine List.Pairwise.cons ?_ h
      intro y hy
      rcases List.mem_cons.mp hy with hyx | hyxs
      · subst hyx; exact hsx
      · exact strLe_trans hsx (hx y hyxs)
    · rw [if_neg hsx]
      refine List.Pairwise.cons ?_ (ih hxs)
      intro y hy
      have hy' : y ∈ s :: xs := (perm_insertSorted s xs).mem_iff.mp hy
      rcases List.mem_cons.mp hy' with hys | hyxs
      · rw [hys]
        rcases strLe_total s x with ht | ht
        · exact absurd ht hsx
        · exact ht
      · exact hx y hyxs

theorem sorted_sortStrings :
    ∀ l : List String, (sortStrings l).Pairwise (fun a b => strLe a b = true) := by
  intro l
  induction l with
  | nil => exact List.Pairwise.nil
  | cons x xs ih => exact sorted_insertSorted x (sortStrings xs) ih

/-- C8 (amended): list_instances returns a ≤-sorted (code-point order,
hence case-sensitive) permutation of exactly the names of the
subdirectories of the instances directory that contain an instance.json
file — present or not is all that is checked, validity of the document
is not; code-point order places "Z" before "a". -/
theorem list_instances_sorted_dir_names (entries : List InstanceDirEntry) :
    (list_instances entries).Pairwise (fun a b => strLe a b = true)
    ∧ (list_instances entries).Perm
        ((entries.filter (fun e => e.isDir && e.doc.isSome)).map (fun e => e.name))
    ∧ list_instances [⟨"a", true, some .corrupt⟩, ⟨"Z", true, some .corrupt⟩]
        = ["Z", "a"] :=
  ⟨sorted_sortStrings _, perm_sortStrings _, rfl⟩

/-- Prefix of a character list before the first occurrence of sep, i.e.
Python s.split(sep)\x5b0\x5d. -/
def splitBefore (sep : List Char) : List Char → List Char
  | [] => []
  | c :: rest => if sep.isPrefixOf (c :: rest) then [] else c :: splitBefore sep rest

/-- mod_manager.py detect_conflicts normalization:
mod.name.lower().split('_v')\x5b0\x5d.split('-v')\x5b0\x5d, with .lower()
embedded as a per-character map. -/
def base_name (s : String) : String :=
  ⟨splitBefore ['-', 'v'] (splitBefore ['_', 'v'] (s.toList.map Char.toLower))⟩

/-- Python substring containment (keyword in name). -/
def hasSub (sub : List Char) : List Char → Bool
  | [] => sub.isPrefixOf []
  | c :: rest => sub.isPrefixOf (c :: rest) || hasSub sub rest

/-- mod_manager.py detect_conflicts AI keyword list. -/
def ai_keywords : List String := ["ai", "suspect", "swat", "officer"]

/-- Names of the enabled mods whose lowercased name contains an AI
keyword, in iteration order. -/
def aiModNames (ms : List ModRecord) : List String :=
  (ms.filter (fun m =>
    ai_keywords.any (fun k => hasSub k.toList (m.name.toList.map Char.toLower)))).map
    (fun m => m.name)

/-- The AI-keyword section of detect_conflicts: one combined warning
when more than one AI-related mod is enabled. -/
def aiWarnings (ms : List ModRecord) : List String :=
  if 1 < (aiModNames ms).length then
    ["Multiple AI-related mods detected: " ++ String.intercalate ", " (aiModNames ms)
      ++ ". These may conflict."]
  else []

/-- The near-duplicate warning text, naming the first-seen (canonical)
mod and the newly colliding one. -/
def similarWarning (canonical current : String) : String :=
  "Similar mods detected: \x27" ++ canonical ++ "\x27 and \x27" ++ current
    ++ "\x27. These may be duplicate versions."

/-- The seen_names loop of detect_conflicts: seen maps a normalized base
to the first mod name that produced it; each later mod with a known base
appends one warning. -/
def dupLoop : List ModRecord → List (String × String) → List String → List String
  | [], _, ws => ws
  | m :: rest, seen, ws =>
    match seen.find? (fun kv => kv.1 == base_name m.name) with
    | some kv => dupLoop rest seen (ws ++ [similarWarning kv.2 m.name])
    | none => dupLoop rest (seen ++ [(base_name m.name, m.name)]) ws

/-- mod_manager.py ModManager.detect_conflicts: AI-keyword warnings
followed by near-duplicate warnings over the enabled mods. -/
def detect_conflicts (inst : Instance) : List String :=
  aiWarnings inst.get_enabled_mods ++ dupLoop inst.get_enabled_mods [] []

/-- Stated from the spec wording of the near-duplicate heuristic: walk
the mods in order keeping the list of earlier mods; a mod whose
normalized base equals the base of some earlier mod yields exactly one
warning naming the first such earlier mod as canonical. -/
def dupWarningsSpec : List ModRecord → List ModRecord → List String
  | _, [] => []
  | earlier, m :: rest =>
    match earlier.find? (fun p => base_name p.name == base_name m.name) with
    | some p0 => similarWarning p0.name m.name :: dupWarningsSpec (earlier ++ [m]) rest
    | none => dupWarningsSpec (earlier ++ [m]) rest

/-- Stated from the spec wording of the normalization: truncate at the
first occurrence of either version-marker spelling. -/
def truncBeforeEither (a b : List Char) : List Char → List Char
  | [] => []
  | c :: rest =>
    if a.isPrefixOf (c :: rest) || b.isPrefixOf (c :: rest) then []
    else c :: truncBeforeEither a b rest

theorem find?_append_first {α : Type} (p : α → Bool) :
    ∀ (l1 l2 : List α), (l1 ++ l2).find? p
      = match l1.find? p with
        | some x => some x
        | none => l2.find? p := by
  intro l1 l2
  induction l1 with
  | nil => rfl
  | cons a t ih =>
    by_cases h : p a = true <;> simp [List.find?, h, ih]

theorem splitBefore_cons_shape (sep : List Char) (x : Char) (t : List Char) :
    splitBefore sep (x :: t) = []
    ∨ splitBefore sep (x :: t) = x :: splitBefore sep t := by
  by_cases h : sep.isPrefixOf (x :: t) = true
  · left; simp only [splitBefore]; rw [if_pos h]
  · right; simp only [splitBefore]; rw [if_neg h]

theorem base_name_first_marker : ∀ l : List Char,
    splitBefore ['-', 'v'] (splitBefore ['_', 'v'] l)
      = truncBeforeEither ['_', 'v'] ['-', 'v'] l := by
  intro l
  induction l with
  | nil => rfl
  | cons c rest ih =>
    by_cases h1 : (['_', 'v'] : List Char).isPrefixOf (c :: rest) = true
    · simp [splitBefore, truncBeforeEither, h1]
    · by_cases h2 : (['-', 'v'] : List Char).isPrefixOf (c :: rest) = true
      · have hc : '-' = c ∧ (['v'] : List Char) <+: rest := by
          simpa [List.isPrefixOf] using h2
        obtain ⟨hc1, hc2⟩ := hc
        cases rest with
        | nil => simp at hc2
        | cons r rest' =>
          have hr : 'v' = r := by
            have := List.cons_prefix_cons.mp hc2
            exact this.1
          subst hc1
          subst hr
          simp [splitBefore, truncBeforeEither, h1, List.isPrefixOf]
      · have hsplit : splitBefore ['_', 'v'] (c :: rest)
            = c :: splitBefore ['_', 'v'] rest := by
          simp [splitBefore, h1]
        have houter : (['-', 'v'] : List Char).isPrefixOf
            (c :: splitBefore ['_', 'v'] rest) = false := by
          cases rest with
          | nil => simp [splitBefore, List.isPrefixOf]
          | cons r rest' =>
            rcases splitBefore_cons_shape ['_', 'v'] r rest' with hsh | hsh <;>
              rw [hsh]
            · simp [List.isPrefixOf]
            · simp [List.isPrefixOf] at h2 ⊢
              tauto
        calc splitBefore ['-', 'v'] (splitBefore ['_', 'v'] (c :: rest))
            = splitBefore ['-', 'v'] (c :: splitBefore ['_', 'v'] rest) := by
              rw [hsplit]
          _ = c :: splitBefore ['-', 'v'] (splitBefore ['_', 'v'] rest) := by
              simp [splitBefore, houter]
          _ = c :: truncBeforeEither ['_', 'v'] ['-', 'v'] rest := by rw [ih]
          _ = truncBeforeEither ['_', 'v'] ['-', 'v'] (c :: rest) := by
              simp [truncBeforeEither, h1, h2]

theorem dupLoop_spec :
    ∀ (ms : List ModRecord) (seen : List (String × String))
      (earlier : List ModRecord) (ws : List String),
    (∀ b : String, seen.find? (fun kv => kv.1 == b)
        = (earlier.find? (fun p => base_name p.name == b)).map (fun p => (b, p.name))) →
    dupLoop ms seen ws = ws ++ dupWarningsSpec earlier ms := by
  intro ms
  induction ms with
  | nil => intro seen earlier ws _; simp [dupLoop, dupWarningsSpec]
  | cons m rest ih =>
    intro seen earlier ws hinv
    have hb := hinv (base_name m.name)
    cases hfind : earlier.find? (fun p => base_name p.name == base_name m.name) with
    | some p0 =>
      have hseen : seen.find? (fun kv => kv.1 == base_name m.name)
          = some (base_name m.name, p0.name) := by rw [hb, hfind]; rfl
      have hstep : dupLoop (m :: rest) seen ws
          = dupLoop rest seen (ws ++ [similarWarning p0.name m.name]) := by
        simp only [dupLoop]; rw [hseen]
      have hspec : dupWarningsSpec earlier (m :: rest)
          = similarWarning p0.name m.name :: dupWarningsSpec (earlier ++ [m]) rest := by
        simp only [dupWarningsSpec]; rw [hfind]
      have hinv' : ∀ b : String,
          seen.find? (fun kv => kv.1 == b)
            = ((earlier ++ [m]).find? (fun p => base_name p.name == b)).map
                (fun p => (b, p.name)) := by
        intro b
        rw [hinv b, find?_append_first]
        cases hE : earlier.find? (fun p => base_name p.name == b) with
        | some q => rfl
        | none =>
          by_cases hbeq : (base_name m.name == b) = true
          · have hbm : base_name m.name = b := beq_iff_eq.mp hbeq
            rw [hbm] at hfind
            rw [hfind] at hE
            cases hE
          · simp [List.find?, hbeq]
      rw [hstep, ih seen (earlier ++ [m]) (ws ++ [similarWarning p0.name m.name]) hinv',
        hspec]
      simp
    | none =>
      have hseen : seen.find? (fun kv => kv.1 == base_name m.name) = none := by
        rw [hb, hfind]; rfl
      have hstep : dupLoop (m :: rest) seen ws
          = dupLoop rest (seen ++ [(base_name m.name, m.name)]) ws := by
        simp only [dupLoop]; rw [hseen]
      have hspec : dupWarningsSpec earlier (m :: rest)
          = dupWarningsSpec (earlier ++ [m]) rest := by
        simp only [dupWarningsSpec]; rw [hfind]
      have hinv' : ∀ b : String,
          (seen ++ [(base_name m.name, m.name)]).find? (fun kv => kv.1 == b)
            = ((earlier ++ [m]).find? (fun p => base_name p.name == b)).map
                (fun p => (b, p.name)) := by
        intro b
        rw [find?_append_first, find?_append_first, hinv b]
        cases hE : earlier.find? (fun p => base_name p.name == b) with
        | some q => rfl
        | none =>
          by_cases hbeq : (base_name m.name == b) = true
          · have hbm : base_name m.name = b := beq_iff_eq.mp hbeq
            simp [List.find?, hbeq, hbm]
          · simp [List.find?, hbeq]
      rw [hstep, ih (seen ++ [(base_name m.name, m.name)]) (earlier ++ [m]) ws hinv',
        hspec]

/-- The C9 example instance with two enabled Overhaul versions. -/
def overhaulInst : Instance :=
  ⟨"profiles",
   [⟨"Overhaul_v1", "Overhaul_v1.pak", "/lib/o1.pak", 1, true⟩,
    ⟨"Overhaul_v2", "Overhaul_v2.pak", "/lib/o2.pak", 2, true⟩],
   "2024-01-03"⟩

/-- C9: the near-duplicate heuristic of detect_conflicts matches the
spec wording: names are normalized by case-folding and truncation at
the first version-marker spelling, and the warnings are exactly one per
later mod whose normalized base collides with an earlier one, in
iteration order, naming the first-seen mod as canonical; the
Overhaul_v1 / Overhaul_v2 instance yields exactly that one warning. -/
theorem detect_conflicts_near_duplicate :
    (∀ inst : Instance,
      detect_conflicts inst
        = aiWarnings inst.get_enabled_mods
          ++ dupWarningsSpec [] inst.get_enabled_mods)
    ∧ (∀ s : String,
        base_name s
          = ⟨truncBeforeEither ['_', 'v'] ['-', 'v'] (s.toList.map Char.toLower)⟩)
    ∧ detect_conflicts overhaulInst
        = [similarWarning "Overhaul_v1" "Overhaul_v2"] := by
  refine ⟨?_, ?_, ?_⟩
  · intro inst
    unfold detect_conflicts
    rw [dupLoop_spec inst.get_enabled_mods [] [] [] (fun b => rfl)]
    rfl
  · intro s
    unfold base_name
    rw [base_name_first_marker]
  · decide
